import Mathlib

/-!
Verification development for the supertracery tracking pipeline
(src/python/tracker.py, src/python/supertracery.py, src/python/preview_server.py).

The deterministic fallback pipeline is embedded shallowly:
pixel buffers become lists of lists over Nat (8-bit values) and Rat
(continuous values), Python dicts of per-object masks become association
lists, fallible code (cv2.imread returning None, operations that raise)
returns Except/Option.  External OpenCV routines whose internals are not
part of this repository (Farneback optical flow, grayscale conversion,
findContours, contourArea, approxPolyDP) are taken as function parameters;
everything the repository itself computes (moments, bounding boxes, remap
warping with bilinear interpolation, thresholding, smoothing loops,
orchestration) is implemented concretely.  Python round(x, n) on the
rational values arising here is modelled as round-to-nearest on Rat.
-/

set_option linter.unusedVariables false

/-- Python round(q, 2) modelled on rationals. -/
def round2 (q : ℚ) : ℚ := (round (q * 100) : ℤ) / 100

/-- Python round(q, 4) modelled on rationals. -/
def round4 (q : ℚ) : ℚ := (round (q * 10000) : ℤ) / 10000

/-- Python round(q, 6) modelled on rationals. -/
def round6 (q : ℚ) : ℚ := (round (q * 1000000) : ℤ) / 1000000

/-- A grayscale image (cv2.imread with IMREAD_GRAYSCALE): rows of 8-bit values. -/
abbrev Gray := List (List ℕ)

/-- A binary object mask: rows of 8-bit values, nonzero means in-object. -/
abbrev Mask := List (List ℕ)

/-- A color frame: rows of BGR pixel triples. -/
abbrev Img := List (List (ℕ × ℕ × ℕ))

/-- A dense optical-flow field: per-pixel (dx, dy) displacement. -/
abbrev FlowField := List (List (ℚ × ℚ))

/-- A contour / polygon: ordered integer vertices. -/
abbrev Contour := List (ℤ × ℤ)

/-- Number of rows of a matrix (numpy shape[0]). -/
def matH (m : List (List α)) : ℕ := m.length

/-- Number of columns of a matrix (numpy shape[1]; rows are uniform in numpy). -/
def matW (m : List (List α)) : ℕ := (m.headD []).length

/-- np.zeros((h, w), dtype=np.uint8). -/
def zerosMat (h w : ℕ) : Mask := List.replicate h (List.replicate w 0)

/-- Every pixel of the mask is zero. -/
def maskAllZero (m : Mask) : Prop := ∀ r ∈ m, ∀ v ∈ r, v = 0

instance (m : Mask) : Decidable (maskAllZero m) := by
  unfold maskAllZero; infer_instance

/-!
### Per-frame analysis record

analyze_frame in tracker.py returns a dict with centroid, bbox, polygon,
area, avg_luma, motion_vector; the orchestrator in supertracery.py extends
it with frame_index, time and confidence.  FrameData is the extended
record, AnalysisResult the bare one.
-/

structure AnalysisResult where
  centroid : ℚ × ℚ
  bbox : ℤ × ℤ × ℤ × ℤ
  polygon : Contour
  area : ℕ
  avg_luma : ℚ
  motion_vector : ℚ × ℚ
deriving DecidableEq

structure FrameData where
  frame_index : ℕ
  time : ℚ
  centroid : ℚ × ℚ
  bbox : ℤ × ℤ × ℤ × ℤ
  polygon : Contour
  area : ℕ
  avg_luma : ℚ
  motion_vector : ℚ × ℚ
  confidence : ℚ
deriving DecidableEq

def dummyFrame : FrameData :=
  { frame_index := 0, time := 0, centroid := (0, 0), bbox := (0, 0, 0, 0),
    polygon := [], area := 0, avg_luma := 0, motion_vector := (0, 0), confidence := 0 }

instance : Inhabited FrameData := ⟨dummyFrame⟩

/-- All fields of a FrameData except motion_vector. -/
def dropMV (f : FrameData) : ℕ × ℚ × (ℚ × ℚ) × (ℤ × ℤ × ℤ × ℤ) × Contour × ℕ × ℚ × ℚ :=
  (f.frame_index, f.time, f.centroid, f.bbox, f.polygon, f.area, f.avg_luma, f.confidence)

/-!
### smooth_motion_vectors (tracker.py lines 301-324)

The Python loop mutates frames_data in place: the window sum at index i
reads entries j < i that were already overwritten by earlier iterations.
The in-place update is modelled by threading the list through the loop.
-/

/-- One iteration of the smoothing for-loop body at index i. -/
def smoothStep (n half : ℕ) (frames_data : List FrameData) (i : ℕ) : List FrameData :=
  let start := i - half
  let stop := min n (i + half + 1)
  let idxs := List.range' start (stop - start)
  let vx_sum : ℚ := (idxs.map (fun j => (frames_data.getD j dummyFrame).motion_vector.1)).sum
  let vy_sum : ℚ := (idxs.map (fun j => (frames_data.getD j dummyFrame).motion_vector.2)).sum
  let count := stop - start
  if 0 < count then
    frames_data.set i
      { frames_data.getD i dummyFrame with
        motion_vector := (round2 (vx_sum / count), round2 (vy_sum / count)) }
  else frames_data

/-- The for i in range(n) loop of smooth_motion_vectors. -/
def smoothLoop (n half : ℕ) : List FrameData → ℕ → ℕ → List FrameData
  | fd, _, 0 => fd
  | fd, i, k + 1 => smoothLoop n half (smoothStep n half fd i) (i + 1) k

/-- smooth_motion_vectors(frames_data, window) from tracker.py. -/
def smooth_motion_vectors (frames_data : List FrameData) (window : ℕ) : List FrameData :=
  let n := frames_data.length
  if n < window then frames_data
  else smoothLoop n (window / 2) frames_data 0 n

/-- A track entry whose only distinguishing content is its motion vector. -/
def mvEntry (v : ℚ × ℚ) : FrameData := { dummyFrame with motion_vector := v }

/-- The spec scenario: motion vectors (0,0),(2,0),(4,0),(2,0),(0,0). -/
def scenarioTrack : List FrameData :=
  [mvEntry (0, 0), mvEntry (2, 0), mvEntry (4, 0), mvEntry (2, 0), mvEntry (0, 0)]

/-!
### _fallback_propagate (tracker.py lines 358-406)

cv2.calcOpticalFlowFarneback is an external routine and is a function
parameter; cv2.remap with INTER_LINEAR and BORDER_CONSTANT 0 followed by
the 0.5 threshold is implemented as exact bilinear interpolation over the
rationals.  cv2.imread returning None for an unreadable frame is modelled
by imread : frame index -> Option Gray.  The flowSteps field records the
frame indices at which the Farneback call is made, so that skipping flow
computation on unreadable frames is observable.  Calling Farneback with a
None previous frame would raise in cv2; this is modelled by Except.
-/

/-- Pixel lookup in a rational-valued matrix with constant 0 border. -/
def pixQ (m : List (List ℚ)) (y x : ℤ) : ℚ :=
  if y < 0 ∨ x < 0 then 0 else (m.getD y.toNat []).getD x.toNat 0

/-- Bilinear interpolation of a rational-valued matrix at (fy, fx). -/
def bilin (m : List (List ℚ)) (fy fx : ℚ) : ℚ :=
  let y0 : ℤ := ⌊fy⌋
  let x0 : ℤ := ⌊fx⌋
  let ay : ℚ := fy - y0
  let ax : ℚ := fx - x0
  (1 - ay) * ((1 - ax) * pixQ m y0 x0 + ax * pixQ m y0 (x0 + 1)) +
    ay * ((1 - ax) * pixQ m (y0 + 1) x0 + ax * pixQ m (y0 + 1) (x0 + 1))

/-- Flow vector at grid position (y, x). -/
def flowAt (flow : FlowField) (y x : ℕ) : ℚ × ℚ := (flow.getD y []).getD x (0, 0)

/-- A row of 8-bit values cast to rationals (part of astype(float32)). -/
def castRow (r : List ℕ) : List ℚ := r.map (fun v : ℕ => (v : ℚ))

/-- A mask cast to a rational-valued matrix (astype(float32)). -/
def castMat (m : Mask) : List (List ℚ) := m.map castRow

/-- cv2.remap(prev_mask.astype(float32), x + flow.x, y + flow.y, INTER_LINEAR,
BORDER_CONSTANT 0) followed by (warped > 0.5).astype(uint8); the remap grids
have the shape (h, w) of prev_gray. -/
def warpMask (flow : FlowField) (h w : ℕ) (mask : Mask) : Mask :=
  let mq : List (List ℚ) := castMat mask
  (List.range h).map (fun y => (List.range w).map (fun x =>
    let d := flowAt flow y x
    let v := bilin mq ((y : ℚ) + d.2) ((x : ℚ) + d.1)
    if 1/2 < v then 1 else 0))

/-- The loop state of _fallback_propagate: the per-object mask sequences,
the grayscale of the last successfully read frame, and the trace of frame
indices at which optical flow was computed. -/
structure PropState where
  allMasks : List (ℕ × List (Option Mask))
  prevGray : Option Gray
  flowSteps : List ℕ
deriving DecidableEq

/-- The mask sequence of the object at position t of the association list. -/
def mlist (s : PropState) (t : ℕ) : List (Option Mask) :=
  (s.allMasks.getD t (0, [])).2

/-- One iteration of the for i in range(1, total_frames) loop of
_fallback_propagate. -/
def fstep (imread : ℕ → Option Gray) (calcFlow : Gray → Gray → FlowField)
    (s : PropState) (i : ℕ) : Except String PropState :=
  match imread i with
  | none =>
    .ok { s with allMasks :=
      s.allMasks.map (fun p => (p.1, p.2.set i (p.2.getD (i - 1) none))) }
  | some curr =>
    match s.prevGray with
    | none => .error "calcOpticalFlowFarneback: prev frame is None"
    | some prev =>
      let flow := calcFlow prev curr
      let h := matH prev
      let w := matW prev
      .ok { allMasks :=
              s.allMasks.map (fun p => (p.1, p.2.set i (some
                (match p.2.getD (i - 1) none with
                 | none => zerosMat h w
                 | some pm => warpMask flow h w pm)))),
            prevGray := some curr,
            flowSteps := s.flowSteps ++ [i] }

/-- The for i in range(1, total_frames) loop: i is the current index, the
third argument the number of remaining iterations. -/
def propLoop (imread : ℕ → Option Gray) (calcFlow : Gray → Gray → FlowField) :
    PropState → ℕ → ℕ → Except String PropState
  | s, _, 0 => .ok s
  | s, i, n + 1 =>
    match fstep imread calcFlow s i with
    | .error e => .error e
    | .ok s1 => propLoop imread calcFlow s1 (i + 1) n

/-- The state before the propagation loop: each object's sequence is
[None] * total_frames with the initial mask at index 0; prev_gray is the
first frame's grayscale read. -/
def propInit (imread : ℕ → Option Gray) (initial_masks : List (ℕ × Mask))
    (total_frames : ℕ) : PropState :=
  { allMasks := initial_masks.map (fun p =>
      (p.1, (List.replicate total_frames (none : Option Mask)).set 0 (some p.2))),
    prevGray := imread 0,
    flowSteps := [] }

/-- _fallback_propagate(frame_paths, initial_masks, total_frames). -/
def fallback_propagate (imread : ℕ → Option Gray)
    (calcFlow : Gray → Gray → FlowField)
    (initial_masks : List (ℕ × Mask)) (total_frames : ℕ) :
    Except String (List (ℕ × List (Option Mask)) × List ℕ) :=
  match propLoop imread calcFlow (propInit imread initial_masks total_frames) 1
      (total_frames - 1) with
  | .error e => .error e
  | .ok s => .ok (s.allMasks, s.flowSteps)

/-!
### _mask_to_polygon (tracker.py lines 276-298)

cv2.findContours, cv2.contourArea and cv2.approxPolyDP are external and
are function parameters.  Contours are lists of integer vertices, so the
numpy squeeze single-point special case is the identity here.  Python
indexes polygon[0] after the loop, which raises if the approximation is
empty; that failure is modelled by returning none.
-/

/-- Python max(contours, key=area): the first element of maximal key. -/
def maxByKey (key : Contour → ℚ) (c : Contour) (cs : List Contour) : Contour :=
  cs.foldl (fun best x => if key best < key x then x else best) c

/-- The simplification loop: run up to the given fuel many iterations,
computing approxPolyDP at the current epsilon, stopping at the first result
with at most maxPoints vertices; epsilon grows by 3/2 each iteration, and
the last approximation is kept when the fuel runs out. -/
def approxGo (f : ℚ → Contour) (maxPoints : ℕ) : ℕ → ℚ → Contour → Contour
  | 0, _, last => last
  | fuel + 1, eps, _ =>
    if (f eps).length ≤ maxPoints then f eps
    else approxGo f maxPoints fuel (eps * (3/2)) (f eps)

/-- The contour selected by _mask_to_polygon: the first contour of maximal
cv2.contourArea (empty when there are no contours). -/
def selectedContour (findContours : Mask → List Contour) (contourArea : Contour → ℚ)
    (mask : Mask) : Contour :=
  match findContours mask with
  | [] => []
  | c :: cs => maxByKey contourArea c cs

/-- _mask_to_polygon(mask, max_points). -/
def mask_to_polygon (findContours : Mask → List Contour)
    (contourArea : Contour → ℚ) (approxPolyDP : Contour → ℚ → Contour)
    (mask : Mask) (max_points : ℕ) : Option Contour :=
  match findContours mask with
  | [] => some []
  | c :: cs =>
    let contour := maxByKey contourArea c cs
    let approx := approxGo (fun eps => approxPolyDP contour eps) max_points 20 2 []
    if approx = [] then none else some approx

/-!
### analyze_frame (tracker.py lines 217-273)

cv2.cvtColor BGR2GRAY is external and a parameter.  cv2.moments of a mask
sums pixel values; cv2.findNonZero / cv2.boundingRect give the tight box
of nonzero pixels.  cv2.imread returning None makes cv2.cvtColor raise, so
an unreadable frame is an error.
-/

/-- Sum of all mask values (image moment m00). -/
def m00 (mask : Mask) : ℕ := (mask.map List.sum).sum

/-- Sum of x * value over the mask (image moment m10). -/
def m10 (mask : Mask) : ℕ :=
  (mask.map (fun r => (r.enum.map (fun p => p.1 * p.2)).sum)).sum

/-- Sum of y * value over the mask (image moment m01). -/
def m01 (mask : Mask) : ℕ :=
  (mask.enum.map (fun p => p.1 * p.2.sum)).sum

/-- Coordinates (x, y) of the nonzero pixels of a mask (cv2.findNonZero). -/
def nonzeroCoords (mask : Mask) : List (ℕ × ℕ) :=
  (mask.enum.map (fun yr =>
    yr.2.enum.filterMap (fun xv => if 0 < xv.2 then some (xv.1, yr.1) else none))).flatten

/-- analyze_frame(image_path, mask, prev_centroid). -/
def analyze_frame (cvtGray : Img → Gray) (findContours : Mask → List Contour)
    (contourArea : Contour → ℚ) (approxPolyDP : Contour → ℚ → Contour)
    (imageOpt : Option Img) (mask : Mask) (prev_centroid : Option (ℚ × ℚ)) :
    Except String AnalysisResult :=
  match imageOpt with
  | none => .error "cvtColor: image is None"
  | some image =>
    let h := matH mask
    let w := matW mask
    let cxy : ℚ × ℚ :=
      if 0 < m00 mask then
        ((m10 mask : ℚ) / (m00 mask : ℚ), (m01 mask : ℚ) / (m00 mask : ℚ))
      else ((w : ℚ) / 2, (h : ℚ) / 2)
    let centroid : ℚ × ℚ := (round2 cxy.1, round2 cxy.2)
    let nz := nonzeroCoords mask
    let bbox : ℤ × ℤ × ℤ × ℤ :=
      match nz with
      | [] => (0, 0, (w : ℤ), (h : ℤ))
      | p :: ps =>
        let x1 := ps.foldl (fun a q => min a q.1) p.1
        let y1 := ps.foldl (fun a q => min a q.2) p.2
        let xM := ps.foldl (fun a q => max a q.1) p.1
        let yM := ps.foldl (fun a q => max a q.2) p.2
        let bw := xM - x1 + 1
        let bh := yM - y1 + 1
        ((x1 : ℤ), (y1 : ℤ), (x1 : ℤ) + (bw : ℤ), (y1 : ℤ) + (bh : ℤ))
    let area : ℕ := (mask.map (fun r => r.countP (fun v => 0 < v))).sum
    match mask_to_polygon findContours contourArea approxPolyDP mask 64 with
    | none => .error "polygon[0]: index out of range"
    | some polygon =>
      let gray := cvtGray image
      let masked : List ℕ := ((List.zip gray mask).map (fun p =>
        (List.zip p.1 p.2).filterMap (fun gv =>
          if 0 < gv.2 then some gv.1 else none))).flatten
      let avg_luma : ℚ :=
        if masked.length ≠ 0 then round4 (((masked.sum : ℚ) / (masked.length : ℚ)) / 255)
        else 0
      let motion_vector : ℚ × ℚ :=
        match prev_centroid with
        | some pc => (round2 (centroid.1 - pc.1), round2 (centroid.2 - pc.2))
        | none => (0, 0)
      .ok { centroid := centroid, bbox := bbox, polygon := polygon, area := area,
            avg_luma := avg_luma, motion_vector := motion_vector }

/-!
### The per-object analysis loop of run_segment_and_track
(supertracery.py lines 77-119)
-/

/-- The default entry appended when a frame has no mask. -/
def defaultEntry (comp_width comp_height : ℕ) (frame_idx : ℕ) : FrameData :=
  { frame_index := frame_idx,
    time := round6 ((frame_idx : ℚ) / 30),
    centroid := ((comp_width : ℚ) / 2, (comp_height : ℚ) / 2),
    bbox := (0, 0, (comp_width : ℤ), (comp_height : ℤ)),
    polygon := [],
    area := 0,
    avg_luma := 0,
    motion_vector := (0, 0),
    confidence := 0 }

/-- confidence = min(1, area / max(1, comp_width * comp_height * 0.001)). -/
def confidenceOf (comp_width comp_height : ℕ) (area : ℕ) : ℚ :=
  min 1 ((area : ℚ) / max 1 ((comp_width : ℚ) * (comp_height : ℚ) * (1/1000)))

/-- The frame entry built from a successful analyze_frame result: the
analysis fields plus frame_index, time and confidence. -/
def fdataOf (cw ch : ℕ) (r : AnalysisResult) (idx : ℕ) : FrameData :=
  { frame_index := idx,
    time := round6 ((idx : ℚ) / 30),
    centroid := r.centroid,
    bbox := r.bbox,
    polygon := r.polygon,
    area := r.area,
    avg_luma := r.avg_luma,
    motion_vector := r.motion_vector,
    confidence := confidenceOf cw ch r.area }

/-- The for frame_idx in range(total_frames) loop over one object: fs is
the frames list built so far, pc the threaded prev_centroid, idx the
current frame index and the last argument the remaining iteration count. -/
def trackLoop (cvtGray : Img → Gray) (findContours : Mask → List Contour)
    (contourArea : Contour → ℚ) (approxPolyDP : Contour → ℚ → Contour)
    (imread : ℕ → Option Img) (cw ch : ℕ) (masks_list : List (Option Mask)) :
    List FrameData → Option (ℚ × ℚ) → ℕ → ℕ → Except String (List FrameData)
  | fs, _, _, 0 => .ok fs
  | fs, pc, idx, k + 1 =>
    match masks_list.getD idx none with
    | none =>
      trackLoop cvtGray findContours contourArea approxPolyDP imread cw ch masks_list
        (fs ++ [defaultEntry cw ch idx]) pc (idx + 1) k
    | some mask =>
      match analyze_frame cvtGray findContours contourArea approxPolyDP
          (imread idx) mask pc with
      | .error e => .error e
      | .ok r =>
        trackLoop cvtGray findContours contourArea approxPolyDP imread cw ch masks_list
          (fs ++ [fdataOf cw ch r idx]) (some r.centroid) (idx + 1) k

/-- The raw frames list of one object, before motion smoothing. -/
def build_object_frames (cvtGray : Img → Gray) (findContours : Mask → List Contour)
    (contourArea : Contour → ℚ) (approxPolyDP : Contour → ℚ → Contour)
    (imread : ℕ → Option Img) (cw ch : ℕ) (masks_list : List (Option Mask))
    (total_frames : ℕ) : Except String (List FrameData) :=
  trackLoop cvtGray findContours contourArea approxPolyDP imread cw ch masks_list
    [] none 0 total_frames

/-- One object's final track: the analysis loop followed by
smooth_motion_vectors(obj_data.frames, window=3). -/
def run_track_object (cvtGray : Img → Gray) (findContours : Mask → List Contour)
    (contourArea : Contour → ℚ) (approxPolyDP : Contour → ℚ → Contour)
    (imread : ℕ → Option Img) (cw ch : ℕ) (masks_list : List (Option Mask))
    (total_frames : ℕ) : Except String (List FrameData) :=
  match build_object_frames cvtGray findContours contourArea approxPolyDP imread cw ch
      masks_list total_frames with
  | .error e => .error e
  | .ok fs => .ok (smooth_motion_vectors fs 3)

/-!
### The interactive preview query loop (preview_server.py lines 53-108)

The body of the loop (json parse, predict, response assembly) is wrapped
in try/except printing an error JSON, so every processed request prints
exactly one line; it is modelled by a total respond function.
-/

/-- Python str.strip(): drop whitespace from both ends. -/
def pyStrip (s : String) : String :=
  ⟨((s.data.dropWhile Char.isWhitespace).reverse.dropWhile Char.isWhitespace).reverse⟩

/-- The for line in sys.stdin loop of preview_server.main, as a function
from the list of input lines to the list of response lines. -/
def previewLoop (respond : String → String) : List String → List String
  | [] => []
  | line :: rest =>
    let l := pyStrip line
    if l = "" then previewLoop respond rest
    else if l = "QUIT" then []
    else respond l :: previewLoop respond rest

/-- The mask sequence of the object at position t of a propagation result. -/
def trackMasks (masks : List (ℕ × List (Option Mask))) (t : ℕ) : List (Option Mask) :=
  (masks.getD t (0, [])).2

/-- Concrete 2-frame run with frame 1 unreadable, for evaluating the
hold-last-good-frame property. -/
def imreadW2 : ℕ → Option Gray := fun j => if j = 1 then none else some [[5]]

def calcFlowW : Gray → Gray → FlowField := fun _ _ => [[(0, 0)]]

def initW2 : List (ℕ × Mask) := [(0, [[1]])]

/-- A state with one object whose mask at index 0 is absent, used to
evaluate the lost-object branch of the propagation step. -/
def propSW : PropState :=
  { allMasks := [(0, [none, none])], prevGray := some [[7]], flowSteps := [] }

def propS1W : PropState :=
  { allMasks := [(0, [none, some [[0]]])], prevGray := some [[7]], flowSteps := [1] }

def imreadW7 : ℕ → Option Gray := fun _ => some [[7]]

/-- Concrete collaborators for evaluating the polygon loop: one contour,
an approximation that returns its input unchanged. -/
def fcW4 : Mask → List Contour := fun _ => [[(0, 0)]]

def caW4 : Contour → ℚ := fun _ => 0

def apW4 : Contour → ℚ → Contour := fun c _ => c

/-- Concrete collaborators where the epsilon-2.0 approximation genuinely
drops a vertex (as Douglas-Peucker does when a vertex deviates from the
chord by less than the tolerance): the contour (0,0),(5,0),(10,1) loses
its middle vertex at any epsilon of at least 2. -/
def fcC5 : Mask → List Contour := fun _ => [[(0, 0), (5, 0), (10, 1)]]

def caC5 : Contour → ℚ := fun _ => 0

def apC5 : Contour → ℚ → Contour := fun c eps => if 2 ≤ eps then [(0, 0), (10, 1)] else c

/-- Concrete collaborators for evaluating analyze_frame on an all-zero mask. -/
def cvtW6 : Img → Gray := fun im => im.map (fun r => r.map (fun _ => 0))

def fcW6 : Mask → List Contour := fun _ => []

def caW6 : Contour → ℚ := fun _ => 0

def apW6 : Contour → ℚ → Contour := fun c _ => c

def imgW6 : Img := [[(1, 2, 3)]]

/-- Concrete 2-frame orchestrator run: frame 0 has a mask, frame 1 does not. -/
def imreadW3 : ℕ → Option Img := fun _ => some imgW6

def masksW3 : List (Option Mask) := [some [[1]], none]

def finalW3 : List FrameData :=
  [{ frame_index := 0, time := 0, centroid := (0, 0), bbox := (0, 0, 1, 1),
     polygon := [], area := 1, avg_luma := 0, motion_vector := (0, 0), confidence := 1 },
   defaultEntry 2 2 1]

/-- Concrete 4-frame orchestrator run with masks at indices 1 and 3 only. -/
def masksW10 : List (Option Mask) := [none, some [[1]], none, some [[1]]]

def rawW10 : List FrameData :=
  [defaultEntry 2 2 0,
   { frame_index := 1, time := 33333/1000000, centroid := (0, 0), bbox := (0, 0, 1, 1),
     polygon := [], area := 1, avg_luma := 0, motion_vector := (0, 0), confidence := 1 },
   defaultEntry 2 2 2,
   { frame_index := 3, time := 1/10, centroid := (0, 0), bbox := (0, 0, 1, 1),
     polygon := [], area := 1, avg_luma := 0, motion_vector := (0, 0), confidence := 1 }]

/-!
## List access lemmas used throughout
-/

theorem st_getD_set_ne {α : Type} :
    ∀ (l : List α) (i j : ℕ) (a d : α), i ≠ j → (l.set i a).getD j d = l.getD j d := by
  intro l
  induction l with
  | nil => intro i j a d h; simp [List.set]
  | cons x xs ih =>
    intro i j a d h
    cases i with
    | zero =>
      cases j with
      | zero => exact absurd rfl h
      | succ j => simp
    | succ i =>
      cases j with
      | zero => simp
      | succ j => simpa using ih i j a d (by omega)

theorem st_getD_set_self {α : Type} :
    ∀ (l : List α) (i : ℕ) (a d : α),
      (l.set i a).getD i d = if i < l.length then a else d := by
  intro l
  induction l with
  | nil => intro i a d; simp [List.set]
  | cons x xs ih =>
    intro i a d
    cases i with
    | zero => simp
    | succ i => simpa using ih i a d

theorem st_getD_map_fix {α : Type} (f : α → α) (d : α) (hf : f d = d) :
    ∀ (l : List α) (i : ℕ), (l.map f).getD i d = f (l.getD i d) := by
  intro l
  induction l with
  | nil => intro i; simp [hf]
  | cons x xs ih =>
    intro i
    cases i with
    | zero => simp
    | succ i => simpa using ih i

theorem st_getD_concat_self {α : Type} (l : List α) (x d : α) :
    (l ++ [x]).getD l.length d = x := by
  rw [List.getD_eq_getElem?_getD, List.getElem?_append_right (le_refl _)]
  simp

theorem st_getD_append_left {α : Type} (l l2 : List α) (d : α) (i : ℕ)
    (h : i < l.length) : (l ++ l2).getD i d = l.getD i d :=
  List.getD_append l l2 d i h

theorem st_getD_all_zero :
    ∀ (r : List ℕ) (x : ℕ), (∀ v ∈ r, v = 0) → r.getD x 0 = 0 := by
  intro r
  induction r with
  | nil => intro x h; simp
  | cons v vs ih =>
    intro x h
    cases x with
    | zero => simpa using h v (by simp)
    | succ x => simpa using ih x (fun v hv => h v (by simp [hv]))

/-!
## Smoothing lemmas (claims about smooth_motion_vectors)
-/

theorem smoothStep_length (n half : ℕ) (fd : List FrameData) (i : ℕ) :
    (smoothStep n half fd i).length = fd.length := by
  simp only [smoothStep]
  split
  · exact List.length_set fd i _
  · rfl

theorem smoothLoop_length (n half : ℕ) :
    ∀ (k : ℕ) (fd : List FrameData) (i : ℕ),
      (smoothLoop n half fd i k).length = fd.length := by
  intro k
  induction k with
  | zero => intro fd i; rfl
  | succ k ih =>
    intro fd i
    show (smoothLoop n half (smoothStep n half fd i) (i + 1) k).length = fd.length
    rw [ih, smoothStep_length]

theorem smoothStep_dropMV (n half : ℕ) (fd : List FrameData) (i j : ℕ) :
    dropMV ((smoothStep n half fd i).getD j dummyFrame)
      = dropMV (fd.getD j dummyFrame) := by
  simp only [smoothStep]
  split
  · by_cases hij : i = j
    · subst hij
      rw [st_getD_set_self]
      split
      · rfl
      · rw [List.getD_eq_getElem?_getD, List.getElem?_eq_none (by omega)]
        rfl
    · rw [st_getD_set_ne _ _ _ _ _ hij]
  · rfl

theorem smoothLoop_dropMV (n half : ℕ) :
    ∀ (k : ℕ) (fd : List FrameData) (i j : ℕ),
      dropMV ((smoothLoop n half fd i k).getD j dummyFrame)
        = dropMV (fd.getD j dummyFrame) := by
  intro k
  induction k with
  | zero => intro fd i j; rfl
  | succ k ih =>
    intro fd i j
    show dropMV ((smoothLoop n half (smoothStep n half fd i) (i + 1) k).getD j dummyFrame) = _
    rw [ih, smoothStep_dropMV]

/-- C8: smooth_motion_vectors preserves the length of its input; when the
track is shorter than the window it returns the input unchanged; and at
every index every field other than motion_vector is unchanged. -/
theorem smooth_motion_vectors_shape (frames_data : List FrameData) (window : ℕ) :
    (smooth_motion_vectors frames_data window).length = frames_data.length ∧
    (frames_data.length < window → smooth_motion_vectors frames_data window = frames_data) ∧
    ∀ j, dropMV ((smooth_motion_vectors frames_data window).getD j dummyFrame)
      = dropMV (frames_data.getD j dummyFrame) := by
  by_cases h : frames_data.length < window
  · have he : smooth_motion_vectors frames_data window = frames_data := by
      simp only [smooth_motion_vectors, if_pos h]
    rw [he]
    exact ⟨rfl, fun _ => rfl, fun j => rfl⟩
  · have he : smooth_motion_vectors frames_data window
        = smoothLoop frames_data.length (window / 2) frames_data 0 frames_data.length := by
      simp only [smooth_motion_vectors, if_neg h]
    rw [he]
    refine ⟨smoothLoop_length _ _ _ _ _, fun hlt => absurd hlt h,
      fun j => smoothLoop_dropMV _ _ _ _ _ _⟩

unseal Rat.mul Rat.inv Rat.add Rat.sub in
theorem smooth_motion_vectors_shape_witness :
    (smooth_motion_vectors [mvEntry (1, 1)] 3).length = 1 ∧
    smooth_motion_vectors [mvEntry (1, 1)] 3 = [mvEntry (1, 1)] := by
  have h := smooth_motion_vectors_shape [mvEntry (1, 1)] 3
  exact ⟨h.1.trans (by decide), h.2.1 (by decide)⟩

unseal Rat.mul Rat.inv Rat.add Rat.sub in
/-- C1: on the spec scenario track with motion vectors
(0,0),(2,0),(4,0),(2,0),(0,0) and window 3, the code yields (2.78, 0) at
index 2, because the in-place update makes the window at index 2 read the
already-smoothed value at index 1; the average of the original vectors at
indices 1..3, which the spec prescribes, is (8/3, 0), rounded (2.67, 0). -/
theorem smooth_scenario_in_place :
    ((smooth_motion_vectors scenarioTrack 3).getD 2 dummyFrame).motion_vector = (139/50, 0) ∧
    round2 (((2 : ℚ) + 4 + 2) / 3) = 267/100 ∧ ((139 : ℚ)/50) ≠ 267/100 := by decide

/-!
## Propagation lemmas (claims about _fallback_propagate)
-/

theorem st_set_nil {α : Type} (i : ℕ) (a : α) : ([] : List α).set i a = [] := by
  cases i <;> rfl

theorem st_getD_map {α β : Type} (f : α → β) (d : α) :
    ∀ (l : List α) (i : ℕ), (l.map f).getD i (f d) = f (l.getD i d) := by
  intro l
  induction l with
  | nil => intro i; simp
  | cons x xs ih =>
    intro i
    cases i with
    | zero => simp
    | succ i => simp only [List.map_cons, List.getD_cons_succ]; exact ih i

theorem st_mlist_map (g : List (Option Mask) → List (Option Mask)) (hg : g [] = [])
    (l : List (ℕ × List (Option Mask))) (t : ℕ) :
    ((l.map (fun p => (p.1, g p.2))).getD t (0, [])).2 = g ((l.getD t (0, [])).2) := by
  have h := st_getD_map (fun p : ℕ × List (Option Mask) => (p.1, g p.2)) (0, []) l t
  simp only [hg] at h
  rw [h]

/-- Shape of the state after one successful propagation step: each object's
sequence is the old one with index i overwritten; the flow trace grows by i
exactly when the frame was readable; the object count is unchanged. -/
theorem fstep_mlist_char {imread : ℕ → Option Gray} {calcFlow : Gray → Gray → FlowField}
    {s s2 : PropState} {i : ℕ} (hstep : fstep imread calcFlow s i = .ok s2) (t : ℕ) :
    (imread i = none ∧
      mlist s2 t = (mlist s t).set i ((mlist s t).getD (i - 1) none) ∧
      s2.flowSteps = s.flowSteps ∧ s2.allMasks.length = s.allMasks.length) ∨
    (∃ curr prev, imread i = some curr ∧ s.prevGray = some prev ∧
      mlist s2 t = (mlist s t).set i (some
        (match (mlist s t).getD (i - 1) none with
         | none => zerosMat (matH prev) (matW prev)
         | some pm => warpMask (calcFlow prev curr) (matH prev) (matW prev) pm)) ∧
      s2.flowSteps = s.flowSteps ++ [i] ∧ s2.allMasks.length = s.allMasks.length) := by
  cases him : imread i with
  | none =>
    left
    simp only [fstep, him] at hstep
    injection hstep with h2
    subst h2
    refine ⟨rfl, ?_, rfl, List.length_map _ _⟩
    exact st_mlist_map (fun ms => ms.set i (ms.getD (i - 1) none)) (by simp [st_set_nil]) _ t
  | some curr =>
    cases hp : s.prevGray with
    | none =>
      simp only [fstep, him, hp] at hstep
      exact (Except.noConfusion hstep)
    | some prev =>
      right
      simp only [fstep, him, hp] at hstep
      injection hstep with h2
      subst h2
      refine ⟨curr, prev, rfl, rfl, ?_, rfl, List.length_map _ _⟩
      exact st_mlist_map (fun ms => ms.set i (some
        (match ms.getD (i - 1) none with
         | none => zerosMat (matH prev) (matW prev)
         | some pm => warpMask (calcFlow prev curr) (matH prev) (matW prev) pm)))
        (by simp [st_set_nil]) _ t

theorem st_getD_map_lt {α β : Type} (f : α → β) (d : β) (d2 : α) :
    ∀ (l : List α) (t : ℕ), t < l.length → (l.map f).getD t d = f (l.getD t d2) := by
  intro l
  induction l with
  | nil => intro t ht; cases ht
  | cons x xs ih =>
    intro t ht
    cases t with
    | zero => simp
    | succ t =>
      simp only [List.map_cons, List.getD_cons_succ]
      exact ih t (by simpa using ht)

/-- Length of the mask sequence of object slot t in the initial state. -/
theorem mlist_propInit_length (imread : ℕ → Option Gray)
    (initial_masks : List (ℕ × Mask)) (total_frames t : ℕ) :
    (mlist (propInit imread initial_masks total_frames) t).length
      = if t < initial_masks.length then total_frames else 0 := by
  simp only [mlist, propInit]
  by_cases ht : t < initial_masks.length
  · rw [if_pos ht, st_getD_map_lt _ _ ((0 : ℕ), ([] : Mask)) _ _ ht]
    simp
  · rw [if_neg ht,
      List.getD_eq_default _ _ (by rw [List.length_map]; exact Nat.le_of_not_lt ht)]
    rfl

/-- Facts preserved by a successful run of the propagation loop starting at
index i: the object count, each sequence's length, all entries at indices
below i, and every recorded flow step is an old one or a readable frame at
index at least i. -/
theorem propLoop_ok_facts {imread : ℕ → Option Gray} {calcFlow : Gray → Gray → FlowField} :
    ∀ (n : ℕ) (s : PropState) (i : ℕ) (s2 : PropState),
      propLoop imread calcFlow s i n = .ok s2 →
      s2.allMasks.length = s.allMasks.length ∧
      (∀ t, (mlist s2 t).length = (mlist s t).length) ∧
      (∀ t j, j < i → (mlist s2 t).getD j none = (mlist s t).getD j none) ∧
      (∀ j, j ∈ s2.flowSteps → j ∈ s.flowSteps ∨ (i ≤ j ∧ imread j ≠ none)) := by
  intro n
  induction n with
  | zero =>
    intro s i s2 h
    have h2 : Except.ok (ε := String) s = Except.ok s2 := h
    injection h2 with h3
    subst h3
    exact ⟨rfl, fun t => rfl, fun t j _ => rfl, fun j hj => Or.inl hj⟩
  | succ n ih =>
    intro s i s2 h
    rw [propLoop] at h
    cases hf : fstep imread calcFlow s i with
    | error e => rw [hf] at h; exact (Except.noConfusion h)
    | ok s1 =>
      rw [hf] at h
      obtain ⟨hlen, hml, hpres, hflow⟩ := ih s1 (i + 1) s2 h
      have hchar := fstep_mlist_char hf
      refine ⟨?_, ?_, ?_, ?_⟩
      · rcases hchar 0 with ⟨_, _, _, hl⟩ | ⟨_, _, _, _, _, _, hl⟩ <;> rw [hlen, hl]
      · intro t
        rcases hchar t with ⟨_, hm, _, _⟩ | ⟨_, _, _, _, hm, _, _⟩ <;>
          rw [hml t, hm, List.length_set]
      · intro t j hji
        have h1 : (mlist s2 t).getD j none = (mlist s1 t).getD j none :=
          hpres t j (by omega)
        rcases hchar t with ⟨_, hm, _, _⟩ | ⟨_, _, _, _, hm, _, _⟩ <;>
          rw [h1, hm, st_getD_set_ne _ _ _ _ _ (by omega)]
      · intro j hj
        rcases hflow j hj with hj1 | ⟨hij, hread⟩
        · rcases hchar 0 with ⟨_, _, hfl, _⟩ | ⟨curr, prev, hrd, _, _, hfl, _⟩
          · rw [hfl] at hj1
            exact Or.inl hj1
          · rw [hfl] at hj1
            rcases List.mem_append.mp hj1 with h2 | h2
            · exact Or.inl h2
            · have hji : j = i := by simpa using h2
              subst hji
              exact Or.inr ⟨le_refl _, by rw [hrd]; exact fun hc => Option.noConfusion hc⟩
        · exact Or.inr ⟨by omega, hread⟩

/-- Splitting a propagation loop run into two consecutive runs. -/
theorem propLoop_split {imread : ℕ → Option Gray} {calcFlow : Gray → Gray → FlowField}
    (m n : ℕ) :
    ∀ (s : PropState) (i : ℕ),
      propLoop imread calcFlow s i (m + n) =
        match propLoop imread calcFlow s i m with
        | .error e => .error e
        | .ok s1 => propLoop imread calcFlow s1 (i + m) n := by
  induction m with
  | zero =>
    intro s i
    rw [Nat.zero_add]
    show propLoop imread calcFlow s i n = propLoop imread calcFlow s (i + 0) n
    rw [Nat.add_zero]
  | succ m ih =>
    intro s i
    rw [show m + 1 + n = (m + n) + 1 from by omega, propLoop]
    cases hf : fstep imread calcFlow s i with
    | error e =>
      rw [propLoop, hf]
    | ok s1 =>
      show propLoop imread calcFlow s1 (i + 1) (m + n) =
        match propLoop imread calcFlow s i (m + 1) with
        | .error e => .error e
        | .ok s2 => propLoop imread calcFlow s2 (i + (m + 1)) n
      rw [ih s1 (i + 1), propLoop, hf, show i + 1 + m = i + (m + 1) from by omega]

/-- C2: in fallback propagation, at every step i of a successful run where
frame i is unreadable, every object's mask at index i equals its mask at
index i-1 (the branch copies the previous entry, present or absent), and
no optical flow is computed at step i. -/
theorem fallback_hold_last_good
    (imread : ℕ → Option Gray) (calcFlow : Gray → Gray → FlowField)
    (initial_masks : List (ℕ × Mask)) (total_frames : ℕ)
    (masks : List (ℕ × List (Option Mask))) (steps : List ℕ) (i : ℕ)
    (hrun : fallback_propagate imread calcFlow initial_masks total_frames
      = .ok (masks, steps))
    (h1 : 1 ≤ i) (h2 : i < total_frames) (hunread : imread i = none) :
    (∀ t, (trackMasks masks t).getD i none = (trackMasks masks t).getD (i - 1) none) ∧
    i ∉ steps := by
  cases hp : propLoop imread calcFlow (propInit imread initial_masks total_frames) 1
      (total_frames - 1) with
  | error e =>
    rw [fallback_propagate, hp] at hrun
    exact (Except.noConfusion hrun)
  | ok sf =>
    rw [fallback_propagate, hp] at hrun
    have hrun2 : Except.ok (ε := String) (sf.allMasks, sf.flowSteps)
        = .ok (masks, steps) := hrun
    injection hrun2 with hpr
    rw [Prod.mk.injEq] at hpr
    obtain ⟨hmasks, hsteps⟩ := hpr
    subst hmasks
    subst hsteps
    have hsum : (i - 1) + (total_frames - i) = total_frames - 1 := by omega
    rw [← hsum, propLoop_split] at hp
    cases h1seg : propLoop imread calcFlow (propInit imread initial_masks total_frames)
        1 (i - 1) with
    | error e =>
      rw [h1seg] at hp
      exact (Except.noConfusion hp)
    | ok s1 =>
      rw [h1seg] at hp
      have hp2 : propLoop imread calcFlow s1 (1 + (i - 1)) (total_frames - i)
          = .ok sf := hp
      rw [show 1 + (i - 1) = i from by omega] at hp2
      obtain ⟨m, hm⟩ : ∃ m, total_frames - i = m + 1 := ⟨total_frames - i - 1, by omega⟩
      rw [hm, propLoop] at hp2
      cases hf : fstep imread calcFlow s1 i with
      | error e =>
        rw [hf] at hp2
        exact (Except.noConfusion hp2)
      | ok s2 =>
        rw [hf] at hp2
        have hp3 : propLoop imread calcFlow s2 (i + 1) m = .ok sf := hp2
        obtain ⟨flen, fml, fpres, fflow⟩ := propLoop_ok_facts m s2 (i + 1) sf hp3
        obtain ⟨len1, ml1, pres1, flow1⟩ := propLoop_ok_facts (i - 1) _ 1 s1 h1seg
        constructor
        · intro t
          show (mlist sf t).getD i none = (mlist sf t).getD (i - 1) none
          rw [fpres t i (by omega), fpres t (i - 1) (by omega)]
          rcases fstep_mlist_char hf t with ⟨_, hmm, _, _⟩ | ⟨curr, prev, hread, _⟩
          · rw [hmm, st_getD_set_ne _ _ _ _ _ (show i ≠ i - 1 from by omega)]
            have hlt := ml1 t
            rw [mlist_propInit_length] at hlt
            by_cases ht : t < initial_masks.length
            · rw [if_pos ht] at hlt
              rw [st_getD_set_self, if_pos (by omega : i < (mlist s1 t).length)]
            · rw [if_neg ht] at hlt
              have hnil : mlist s1 t = [] := List.length_eq_zero.mp hlt
              rw [hnil, st_set_nil]
              simp
          · rw [hunread] at hread
            exact (Option.noConfusion hread)
        · intro hmem
          rcases fflow i hmem with hin2 | ⟨hii, _⟩
          · rcases fstep_mlist_char hf 0 with ⟨_, _, hfl, _⟩ | ⟨curr, prev, hread, _⟩
            · rw [hfl] at hin2
              rcases flow1 i hin2 with hin0 | ⟨_, hrd⟩
              · simp [propInit] at hin0
              · exact hrd hunread
            · rw [hunread] at hread
              exact (Option.noConfusion hread)
          · omega

theorem fallback_hold_last_good_witness :
    fallback_propagate imreadW2 calcFlowW initW2 2
      = .ok ([(0, [some [[1]], some [[1]]])], []) ∧
    (trackMasks [(0, [some [[1]], some [[1]]])] 0).getD 1 none
      = (trackMasks [(0, [some [[1]], some [[1]]])] 0).getD 0 none ∧
    (1 : ℕ) ∉ ([] : List ℕ) := by
  have h := fallback_hold_last_good imreadW2 calcFlowW initW2 2
    [(0, [some [[1]], some [[1]]])] [] 1 (by rfl) (by omega) (by omega) (by rfl)
  exact ⟨by rfl, h.1 0, h.2⟩

/-!
## Zero masks stay zero under the warp (claims about the lost-object branch)
-/

theorem st_row_cast_zero (r : List ℕ) (h : ∀ v ∈ r, v = 0) (x : ℕ) :
    (castRow r).getD x 0 = 0 := by
  have hz := st_getD_map (fun v : ℕ => (v : ℚ)) 0 r x
  simp only [Nat.cast_zero] at hz
  rw [castRow, hz, st_getD_all_zero r x h, Nat.cast_zero]

theorem st_getD_rows_zero (m : Mask) (hz : maskAllZero m) (i : ℕ) :
    ∀ v ∈ m.getD i [], v = 0 := by
  by_cases h : i < m.length
  · intro v hv
    rw [List.getD_eq_getElem m [] h] at hv
    exact hz _ (List.getElem_mem h) v hv
  · rw [List.getD_eq_default _ _ (Nat.le_of_not_lt h)]
    intro v hv
    exact absurd hv (List.not_mem_nil v)

theorem st_pixQ_zero (m : Mask) (hz : maskAllZero m) (y x : ℤ) :
    pixQ (castMat m) y x = 0 := by
  unfold pixQ
  split
  · rfl
  · have h := st_getD_map castRow [] m y.toNat
    rw [show castRow [] = [] from rfl] at h
    rw [castMat, h]
    exact st_row_cast_zero _ (st_getD_rows_zero m hz y.toNat) x.toNat

theorem st_bilin_zero (m : Mask) (hz : maskAllZero m) (fy fx : ℚ) :
    bilin (castMat m) fy fx = 0 := by
  simp only [bilin, st_pixQ_zero m hz]
  ring

theorem zerosMat_all_zero (h w : ℕ) : maskAllZero (zerosMat h w) := by
  intro r hr v hv
  rw [List.eq_of_mem_replicate hr] at hv
  exact List.eq_of_mem_replicate hv

/-- Warping an all-zero mask through any flow field gives the all-zero
h-by-w mask: bilinear interpolation of zeros is zero, which fails the 0.5
threshold everywhere. -/
theorem warpMask_zero (flow : FlowField) (h w : ℕ) (m : Mask) (hz : maskAllZero m) :
    warpMask flow h w m = zerosMat h w := by
  simp only [warpMask, zerosMat]
  have hcell : ∀ y x : ℕ,
      (if (1 : ℚ)/2 < bilin (castMat m)
          ((y : ℚ) + (flowAt flow y x).2) ((x : ℚ) + (flowAt flow y x).1)
       then (1 : ℕ) else 0) = 0 := by
    intro y x
    rw [st_bilin_zero m hz]
    norm_num
  have hrow : ∀ y : ℕ,
      ((List.range w).map (fun x =>
        if (1 : ℚ)/2 < bilin (castMat m)
            ((y : ℚ) + (flowAt flow y x).2) ((x : ℚ) + (flowAt flow y x).1)
        then (1 : ℕ) else 0)) = List.replicate w 0 := by
    intro y
    rw [List.map_congr_left (fun x _ => hcell y x)]
    rw [show ((List.range w).map (fun _ => (0 : ℕ))) = List.replicate (List.range w).length 0
      from List.map_const' _ 0, List.length_range]
  rw [List.map_congr_left (fun y _ => hrow y)]
  rw [show ((List.range h).map (fun _ => List.replicate w (0 : ℕ)))
      = List.replicate (List.range h).length (List.replicate w 0)
    from List.map_const' _ _, List.length_range]

/-- Once an object's mask is present and all zero at index i-1, a successful
run of the remaining steps keeps it present and all zero at every index it
writes. -/
theorem propLoop_zero_inv {imread : ℕ → Option Gray} {calcFlow : Gray → Gray → FlowField} :
    ∀ (n : ℕ) (s : PropState) (i : ℕ) (sf : PropState) (t : ℕ),
      propLoop imread calcFlow s i n = .ok sf →
      1 ≤ i →
      i - 1 + n < (mlist s t).length →
      (∃ m0, (mlist s t).getD (i - 1) none = some m0 ∧ maskAllZero m0) →
      ∀ k, i - 1 ≤ k → k ≤ i - 1 + n →
        ∃ m1, (mlist sf t).getD k none = some m1 ∧ maskAllZero m1 := by
  intro n
  induction n with
  | zero =>
    intro s i sf t h hi hlen hprev k hk1 hk2
    have h2 : Except.ok (ε := String) s = .ok sf := h
    injection h2 with h3
    subst h3
    have hk : k = i - 1 := by omega
    subst hk
    exact hprev
  | succ n ih =>
    intro s i sf t h hi hlen hprev k hk1 hk2
    rw [propLoop] at h
    cases hf : fstep imread calcFlow s i with
    | error e => rw [hf] at h; exact (Except.noConfusion h)
    | ok s1 =>
      rw [hf] at h
      have h3 : propLoop imread calcFlow s1 (i + 1) n = .ok sf := h
      obtain ⟨m0, hm0, hz0⟩ := hprev
      have hset : ∃ m1, mlist s1 t = (mlist s t).set i (some m1) ∧ maskAllZero m1 := by
        rcases fstep_mlist_char hf t with ⟨_, hmm, _, _⟩ | ⟨curr, prev, _, _, hmm, _, _⟩
        · exact ⟨m0, by rw [hmm, hm0], hz0⟩
        · refine ⟨warpMask (calcFlow prev curr) (matH prev) (matW prev) m0, ?_, ?_⟩
          · rw [hmm, hm0]
          · rw [warpMask_zero _ _ _ _ hz0]
            exact zerosMat_all_zero _ _
      obtain ⟨m1, hs1, hz1⟩ := hset
      have hlen1 : (mlist s1 t).length = (mlist s t).length := by
        rw [hs1, List.length_set]
      have hi_at : (mlist s1 t).getD i none = some m1 := by
        rw [hs1, st_getD_set_self, if_pos (by omega)]
      have hihres := ih s1 (i + 1) sf t h3 (by omega)
        (by rw [hlen1]; omega)
        ⟨m1, by rw [show i + 1 - 1 = i from by omega]; exact hi_at, hz1⟩
      by_cases hk : k = i - 1
      · subst hk
        obtain ⟨_, _, fpres, _⟩ := propLoop_ok_facts n s1 (i + 1) sf h3
        refine ⟨m0, ?_, hz0⟩
        rw [fpres t (i - 1) (by omega), hs1,
          st_getD_set_ne _ _ _ _ _ (by omega), hm0]
      · exact hihres k (by omega) (by omega)

/-- C7: at a propagation step i whose frame is readable, an object whose
mask at index i-1 is absent receives the all-zero h-by-w mask (present,
not absent; h, w are the shape of the last read grayscale), and every
successful continuation of the run keeps that object's masks present and
all zero at every later index it writes: the object is lost for good, with
no re-detection. -/
theorem fallback_lost_object
    (imread : ℕ → Option Gray) (calcFlow : Gray → Gray → FlowField)
    (s : PropState) (i n t : ℕ) (g p : Gray) (s1 sf : PropState)
    (h1 : 1 ≤ i)
    (habs : (mlist s t).getD (i - 1) none = none)
    (hread : imread i = some g)
    (hprev : s.prevGray = some p)
    (hstep : fstep imread calcFlow s i = .ok s1)
    (hrest : propLoop imread calcFlow s1 (i + 1) n = .ok sf)
    (hlen : i + n < (mlist s t).length) :
    (mlist s1 t).getD i none = some (zerosMat (matH p) (matW p)) ∧
    ∀ k, i ≤ k → k ≤ i + n →
      ∃ m1, (mlist sf t).getD k none = some m1 ∧ maskAllZero m1 := by
  rcases fstep_mlist_char hstep t with ⟨hnone, _, _, _⟩ | ⟨curr, prev, hrd, hpg, hmm, _, _⟩
  · rw [hread] at hnone
    exact (Option.noConfusion hnone)
  · rw [hread] at hrd
    injection hrd with hcg
    subst hcg
    rw [hprev] at hpg
    injection hpg with hpp
    subst hpp
    have hmm2 : mlist s1 t = (mlist s t).set i (some (zerosMat (matH p) (matW p))) := by
      rw [hmm, habs]
    constructor
    · rw [hmm2, st_getD_set_self, if_pos (by omega)]
    · have hz : maskAllZero (zerosMat (matH p) (matW p)) := zerosMat_all_zero _ _
      have hinv := propLoop_zero_inv n s1 (i + 1) sf t hrest (by omega)
        (by rw [hmm2, List.length_set]; omega)
        ⟨zerosMat (matH p) (matW p),
          by rw [show i + 1 - 1 = i from by omega, hmm2, st_getD_set_self,
            if_pos (by omega)], hz⟩
      intro k hk1 hk2
      exact hinv k (by omega) (by omega)

theorem fallback_lost_object_witness :
    (mlist propS1W 0).getD 1 none = some (zerosMat 1 1) ∧
    (∃ m1, (mlist propS1W 0).getD 1 none = some m1 ∧ maskAllZero m1) := by
  have h := fallback_lost_object imreadW7 calcFlowW propSW 1 0 0 [[7]] [[7]] propS1W propS1W
    (by omega) (by rfl) (by rfl) (by rfl) (by rfl) (by rfl) (by decide)
  exact ⟨h.1, h.2 1 (by omega) (by omega)⟩

/-!
## Polygon simplification lemmas (claims about _mask_to_polygon)
-/

/-- Characterization of the epsilon-widening loop: with positive fuel n it
returns the first approximation in the chain eps * (3/2)^j with at most
maxPoints vertices, or, when all n attempts exceed the bound, the last
attempted approximation. -/
theorem approxGo_spec (f : ℚ → Contour) (K : ℕ) :
    ∀ (n : ℕ) (eps : ℚ) (last : Contour), 0 < n →
      (∃ j, j < n ∧ (∀ j2, j2 < j → K < (f (eps * (3/2) ^ j2)).length) ∧
        (f (eps * (3/2) ^ j)).length ≤ K ∧
        approxGo f K n eps last = f (eps * (3/2) ^ j)) ∨
      ((∀ j, j < n → K < (f (eps * (3/2) ^ j)).length) ∧
        approxGo f K n eps last = f (eps * (3/2) ^ (n - 1))) := by
  intro n
  induction n with
  | zero => intro eps last h0; exact absurd h0 (lt_irrefl 0)
  | succ n ih =>
    intro eps last h0
    by_cases hle : (f eps).length ≤ K
    · left
      refine ⟨0, by omega, fun j2 hj2 => absurd hj2 (Nat.not_lt_zero j2), ?_, ?_⟩
      · rw [pow_zero, mul_one]; exact hle
      · rw [approxGo, if_pos hle, pow_zero, mul_one]
    · push_neg at hle
      cases n with
      | zero =>
        right
        constructor
        · intro j hj
          have hj0 : j = 0 := by omega
          subst hj0
          rw [pow_zero, mul_one]
          exact hle
        · rw [approxGo, if_neg (by omega), approxGo,
            show (0 : ℕ) + 1 - 1 = 0 from rfl, pow_zero, mul_one]
      | succ m =>
        rcases ih (eps * (3/2)) (f eps) (by omega) with
          ⟨j, hj, hmin, hle2, heqq⟩ | ⟨hall, heqq⟩
        · left
          refine ⟨j + 1, by omega, ?_, ?_, ?_⟩
          · intro j2 hj2
            cases j2 with
            | zero => rw [pow_zero, mul_one]; exact hle
            | succ j3 =>
              have hmj := hmin j3 (by omega)
              rw [show eps * (3/2) * (3/2 : ℚ) ^ j3 = eps * (3/2) ^ (j3 + 1) from by
                ring] at hmj
              exact hmj
          · rw [show eps * (3/2 : ℚ) ^ (j + 1) = eps * (3/2) * (3/2) ^ j from by ring]
            exact hle2
          · rw [approxGo, if_neg (by omega), heqq,
              show eps * (3/2) * (3/2 : ℚ) ^ j = eps * (3/2) ^ (j + 1) from by ring]
        · right
          constructor
          · intro j hj
            cases j with
            | zero => rw [pow_zero, mul_one]; exact hle
            | succ j3 =>
              have hmj := hall j3 (by omega)
              rw [show eps * (3/2) * (3/2 : ℚ) ^ j3 = eps * (3/2) ^ (j3 + 1) from by
                ring] at hmj
              exact hmj
          · rw [approxGo, if_neg (by omega), heqq,
              show m + 1 - 1 = m from rfl, show m + 1 + 1 - 1 = m + 1 from rfl,
              show eps * (3/2) * (3/2 : ℚ) ^ m = eps * (3/2) ^ (m + 1) from by ring]

/-- C4: for every mask with at least one contour, _mask_to_polygon runs the
simplification with epsilon starting at 2.0, multiplied by 3/2 per
iteration, for at most 20 iterations, and returns the first approximation
of the selected contour with at most max_points vertices; when all 20
attempts exceed the bound it returns the 20th (coarsest) approximation
regardless of its vertex count. -/
theorem mask_to_polygon_iteration
    (findContours : Mask → List Contour) (contourArea : Contour → ℚ)
    (approxPolyDP : Contour → ℚ → Contour) (mask : Mask) (max_points : ℕ)
    (hc : findContours mask ≠ [])
    (hne : ∀ eps, approxPolyDP (selectedContour findContours contourArea mask) eps ≠ []) :
    (∃ j, j < 20 ∧
      (∀ j2, j2 < j → max_points <
        (approxPolyDP (selectedContour findContours contourArea mask)
          (2 * (3/2) ^ j2)).length) ∧
      (approxPolyDP (selectedContour findContours contourArea mask)
        (2 * (3/2) ^ j)).length ≤ max_points ∧
      mask_to_polygon findContours contourArea approxPolyDP mask max_points
        = some (approxPolyDP (selectedContour findContours contourArea mask)
            (2 * (3/2) ^ j))) ∨
    ((∀ j, j < 20 → max_points <
        (approxPolyDP (selectedContour findContours contourArea mask)
          (2 * (3/2) ^ j)).length) ∧
      mask_to_polygon findContours contourArea approxPolyDP mask max_points
        = some (approxPolyDP (selectedContour findContours contourArea mask)
            (2 * (3/2) ^ 19))) := by
  cases hfc : findContours mask with
  | nil => exact absurd hfc hc
  | cons c cs =>
    have hsel : selectedContour findContours contourArea mask = maxByKey contourArea c cs := by
      rw [selectedContour, hfc]
    rw [hsel] at hne ⊢
    have hm2p : mask_to_polygon findContours contourArea approxPolyDP mask max_points
        = (if approxGo (fun eps => approxPolyDP (maxByKey contourArea c cs) eps)
              max_points 20 2 [] = [] then none
           else some (approxGo (fun eps => approxPolyDP (maxByKey contourArea c cs) eps)
              max_points 20 2 [])) := by
      rw [mask_to_polygon, hfc]
    rcases approxGo_spec (fun eps => approxPolyDP (maxByKey contourArea c cs) eps)
        max_points 20 2 [] (by omega) with ⟨j, hj, hmin, hlej, heq⟩ | ⟨hall, heq⟩
    · left
      refine ⟨j, hj, fun j2 hj2 => hmin j2 hj2, hlej, ?_⟩
      rw [hm2p, heq, if_neg (hne (2 * (3/2) ^ j))]
    · right
      refine ⟨fun j hj => hall j hj, ?_⟩
      rw [hm2p, heq, if_neg (hne (2 * (3/2) ^ (20 - 1)))]

theorem mask_to_polygon_iteration_witness :
    mask_to_polygon fcW4 caW4 apW4 [[1]] 64 = some [((0 : ℤ), (0 : ℤ))] := by
  have h := mask_to_polygon_iteration fcW4 caW4 apW4 [[1]] 64 (by decide)
    (fun eps => by simp only [apW4]; decide)
  rcases h with ⟨j, hj, hmin, hle, heq⟩ | ⟨hall, heq⟩
  · rw [heq]; rfl
  · exact absurd (hall 0 (by omega)) (by decide)

unseal Rat.mul Rat.inv Rat.add Rat.sub in
/-- C5 counterexample: a mask whose only contour has 3 vertices, well under
the cap of 64, yet _mask_to_polygon returns the epsilon-2.0 approximation,
which has dropped a vertex, not the contour itself. -/
theorem mask_to_polygon_lossy :
    (selectedContour fcC5 caC5 [[1]]).length ≤ 64 ∧
    mask_to_polygon fcC5 caC5 apC5 [[1]] 64 = some [((0 : ℤ), (0 : ℤ)), (10, 1)] ∧
    mask_to_polygon fcC5 caC5 apC5 [[1]] 64 ≠ some (selectedContour fcC5 caC5 [[1]]) := by
  decide

/-- C5 amended: when the selected contour already has at most max_points
vertices and the epsilon-2.0 approximation does not increase the vertex
count (a property of Douglas-Peucker) and is nonempty, _mask_to_polygon
returns the epsilon-2.0 approximation of that contour, accepted on the
first iteration; the raw contour itself is returned only when the
approximation leaves it unchanged. -/
theorem mask_to_polygon_small_contour
    (findContours : Mask → List Contour) (contourArea : Contour → ℚ)
    (approxPolyDP : Contour → ℚ → Contour) (mask : Mask) (max_points : ℕ)
    (hc : findContours mask ≠ [])
    (hsmall : (selectedContour findContours contourArea mask).length ≤ max_points)
    (hmono : (approxPolyDP (selectedContour findContours contourArea mask) 2).length
      ≤ (selectedContour findContours contourArea mask).length)
    (hne : approxPolyDP (selectedContour findContours contourArea mask) 2 ≠ []) :
    mask_to_polygon findContours contourArea approxPolyDP mask max_points
      = some (approxPolyDP (selectedContour findContours contourArea mask) 2) := by
  cases hfc : findContours mask with
  | nil => exact absurd hfc hc
  | cons c cs =>
    have hsel : selectedContour findContours contourArea mask = maxByKey contourArea c cs := by
      rw [selectedContour, hfc]
    rw [hsel] at hsmall hmono hne ⊢
    have hm2p : mask_to_polygon findContours contourArea approxPolyDP mask max_points
        = (if approxGo (fun eps => approxPolyDP (maxByKey contourArea c cs) eps)
              max_points 20 2 [] = [] then none
           else some (approxGo (fun eps => approxPolyDP (maxByKey contourArea c cs) eps)
              max_points 20 2 [])) := by
      rw [mask_to_polygon, hfc]
    have hgo : approxGo (fun eps => approxPolyDP (maxByKey contourArea c cs) eps)
        max_points 20 2 [] = approxPolyDP (maxByKey contourArea c cs) 2 := by
      rw [show (20 : ℕ) = 19 + 1 from rfl, approxGo, if_pos (le_trans hmono hsmall)]
    rw [hm2p, hgo, if_neg hne]

unseal Rat.mul Rat.inv Rat.add Rat.sub in
theorem mask_to_polygon_small_contour_witness :
    mask_to_polygon fcC5 caC5 apC5 [[1]] 64
      = some (apC5 (selectedContour fcC5 caC5 [[1]]) 2) :=
  mask_to_polygon_small_contour fcC5 caC5 apC5 [[1]] 64 (by decide) (by decide)
    (by decide) (by decide)

/-!
## analyze_frame on an all-zero mask (boundary defaults)
-/

theorem st_round2_half (n : ℕ) : round2 ((n : ℚ) / 2) = (n : ℚ) / 2 := by
  unfold round2
  rw [show ((n : ℚ) / 2) * 100 = ((50 * n : ℕ) : ℚ) from by push_cast; ring,
    round_natCast]
  push_cast
  ring

theorem st_m00_zeros (h w : ℕ) : m00 (zerosMat h w) = 0 := by
  simp [m00, zerosMat, List.map_replicate, List.sum_replicate]

theorem st_matH_zeros (h w : ℕ) : matH (zerosMat h w) = h := by
  simp [matH, zerosMat]

theorem st_matW_zeros (h w : ℕ) (hh : 0 < h) : matW (zerosMat h w) = w := by
  cases h with
  | zero => exact absurd hh (lt_irrefl 0)
  | succ h => simp [matW, zerosMat, List.replicate_succ]

theorem st_nonzeroCoords_all_zero (m : Mask) (hz : maskAllZero m) :
    nonzeroCoords m = [] := by
  unfold nonzeroCoords
  rw [List.flatten_eq_nil_iff]
  intro x hx
  obtain ⟨yr, hyr, rfl⟩ := List.mem_map.mp hx
  rw [List.filterMap_eq_nil_iff]
  intro xv hxv
  have hv : xv.2 = 0 :=
    hz yr.2 (List.snd_mem_of_mem_enum hyr) xv.2 (List.snd_mem_of_mem_enum hxv)
  rw [hv]
  simp

theorem st_area_all_zero (m : Mask) (hz : maskAllZero m) :
    (m.map (fun r => r.countP (fun v => 0 < v))).sum = 0 := by
  rw [List.sum_eq_zero]
  intro x hx
  obtain ⟨r, hr, rfl⟩ := List.mem_map.mp hx
  rw [List.countP_eq_zero]
  intro v hv
  rw [hz r hr v hv]
  simp

theorem st_masked_all_zero (gray : Gray) (m : Mask) (hz : maskAllZero m) :
    ((List.zip gray m).map (fun p =>
      (List.zip p.1 p.2).filterMap (fun gv =>
        if 0 < gv.2 then some gv.1 else none))).flatten = [] := by
  rw [List.flatten_eq_nil_iff]
  intro x hx
  obtain ⟨p, hp, rfl⟩ := List.mem_map.mp hx
  rw [List.filterMap_eq_nil_iff]
  intro gv hgv
  have hrow : p.2 ∈ m := (List.of_mem_zip hp).2
  have hval : gv.2 ∈ p.2 := (List.of_mem_zip hgv).2
  rw [hz p.2 hrow gv.2 hval]
  simp

/-- C6: analyze_frame on a readable frame and an all-zero h-by-w mask
returns centroid (w/2, h/2), bbox (0, 0, w, h), area 0 and avg_luma 0
(the empty polygon requires findContours of the empty mask to be empty,
as cv2 guarantees). -/
theorem analyze_frame_zero_mask
    (cvtGray : Img → Gray) (findContours : Mask → List Contour)
    (contourArea : Contour → ℚ) (approxPolyDP : Contour → ℚ → Contour)
    (image : Img) (h w : ℕ) (pc : Option (ℚ × ℚ))
    (hh : 0 < h)
    (hfc : findContours (zerosMat h w) = []) :
    analyze_frame cvtGray findContours contourArea approxPolyDP (some image)
        (zerosMat h w) pc
      = .ok { centroid := ((w : ℚ) / 2, (h : ℚ) / 2),
              bbox := (0, 0, (w : ℤ), (h : ℤ)),
              polygon := [],
              area := 0,
              avg_luma := 0,
              motion_vector := match pc with
                | some p => (round2 ((w : ℚ) / 2 - p.1), round2 ((h : ℚ) / 2 - p.2))
                | none => (0, 0) } := by
  have hz : maskAllZero (zerosMat h w) := zerosMat_all_zero h w
  have hpoly : mask_to_polygon findContours contourArea approxPolyDP (zerosMat h w) 64
      = some [] := by
    rw [mask_to_polygon, hfc]
  simp only [analyze_frame, st_m00_zeros, st_matH_zeros, st_matW_zeros h w hh,
    st_nonzeroCoords_all_zero _ hz, st_area_all_zero _ hz, hpoly,
    st_masked_all_zero _ _ hz, st_round2_half, lt_self_iff_false, if_false,
    List.length_nil, ne_eq, not_true_eq_false]

unseal Rat.mul Rat.inv Rat.add Rat.sub in
theorem analyze_frame_zero_mask_witness :
    analyze_frame cvtW6 fcW6 caW6 apW6 (some imgW6) (zerosMat 1 1) none
      = .ok { centroid := (1/2, 1/2), bbox := (0, 0, 1, 1), polygon := [], area := 0,
              avg_luma := 0, motion_vector := (0, 0) } := by
  have h := analyze_frame_zero_mask cvtW6 fcW6 caW6 apW6 imgW6 1 1 none
    (by omega) (by rfl)
  rw [h]
  congr 1

/-!
## The per-object analysis loop (track completeness and motion references)
-/

/-- A successful analyze_frame call relates its motion vector to its own
centroid and the prev_centroid it was given. -/
theorem analyze_frame_motion
    (cvtGray : Img → Gray) (findContours : Mask → List Contour)
    (contourArea : Contour → ℚ) (approxPolyDP : Contour → ℚ → Contour)
    (imageOpt : Option Img) (mask : Mask) (pc : Option (ℚ × ℚ)) (r : AnalysisResult)
    (h : analyze_frame cvtGray findContours contourArea approxPolyDP imageOpt mask pc
      = .ok r) :
    r.motion_vector = match pc with
      | some p => (round2 (r.centroid.1 - p.1), round2 (r.centroid.2 - p.2))
      | none => (0, 0) := by
  cases imageOpt with
  | none =>
    rw [analyze_frame] at h
    exact (Except.noConfusion h)
  | some image =>
    simp only [analyze_frame] at h
    cases hmp : mask_to_polygon findContours contourArea approxPolyDP mask 64 with
    | none =>
      rw [hmp] at h
      exact (Except.noConfusion h)
    | some poly =>
      rw [hmp] at h
      have h2 : Except.ok (ε := String) _ = Except.ok r := h
      injection h2 with h3
      subst h3
      cases pc with
      | none => rfl
      | some p => rfl

theorem st_smooth_length (fd : List FrameData) (w : ℕ) :
    (smooth_motion_vectors fd w).length = fd.length := by
  by_cases h : fd.length < w
  · rw [show smooth_motion_vectors fd w = fd from by
      simp only [smooth_motion_vectors, if_pos h]]
  · rw [show smooth_motion_vectors fd w
        = smoothLoop fd.length (w / 2) fd 0 fd.length from by
      simp only [smooth_motion_vectors, if_neg h]]
    exact smoothLoop_length _ _ _ _ _

theorem st_smooth_dropMV (fd : List FrameData) (w j : ℕ) :
    dropMV ((smooth_motion_vectors fd w).getD j dummyFrame)
      = dropMV (fd.getD j dummyFrame) := by
  by_cases h : fd.length < w
  · rw [show smooth_motion_vectors fd w = fd from by
      simp only [smooth_motion_vectors, if_pos h]]
  · rw [show smooth_motion_vectors fd w
        = smoothLoop fd.length (w / 2) fd 0 fd.length from by
      simp only [smooth_motion_vectors, if_neg h]]
    exact smoothLoop_dropMV _ _ _ _ _ _

theorem st_A_append (fs : List FrameData) (x : FrameData)
    (hA : ∀ j, j < fs.length → (fs.getD j dummyFrame).frame_index = j)
    (hx : x.frame_index = fs.length) :
    ∀ j, j < (fs ++ [x]).length → ((fs ++ [x]).getD j dummyFrame).frame_index = j := by
  intro j hj
  rw [List.length_append, List.length_singleton] at hj
  by_cases hlt : j < fs.length
  · rw [st_getD_append_left _ _ _ _ hlt]
    exact hA j hlt
  · have hje : j = fs.length := by omega
    subst hje
    rw [st_getD_concat_self]
    exact hx

theorem st_B_append (cw ch : ℕ) (masks_list : List (Option Mask))
    (fs : List FrameData) (x : FrameData)
    (hB : ∀ j, j < fs.length → masks_list.getD j none = none →
      fs.getD j dummyFrame = defaultEntry cw ch j)
    (hx : masks_list.getD fs.length none = none → x = defaultEntry cw ch fs.length) :
    ∀ j, j < (fs ++ [x]).length → masks_list.getD j none = none →
      (fs ++ [x]).getD j dummyFrame = defaultEntry cw ch j := by
  intro j hj habs
  rw [List.length_append, List.length_singleton] at hj
  by_cases hlt : j < fs.length
  · rw [st_getD_append_left _ _ _ _ hlt]
    exact hB j hlt habs
  · have hje : j = fs.length := by omega
    subst hje
    rw [st_getD_concat_self]
    exact hx habs

theorem st_C_append (masks_list : List (Option Mask)) (fs : List FrameData) (x : FrameData)
    (hC : ∀ j, j < fs.length → masks_list.getD j none ≠ none →
      ((∀ j2, j2 < j → masks_list.getD j2 none = none) →
        (fs.getD j dummyFrame).motion_vector = (0, 0)) ∧
      (∀ j2, j2 < j → masks_list.getD j2 none ≠ none →
        (∀ m, j2 < m → m < j → masks_list.getD m none = none) →
        (fs.getD j dummyFrame).motion_vector
          = (round2 ((fs.getD j dummyFrame).centroid.1
                - (fs.getD j2 dummyFrame).centroid.1),
             round2 ((fs.getD j dummyFrame).centroid.2
                - (fs.getD j2 dummyFrame).centroid.2))))
    (hxC : masks_list.getD fs.length none ≠ none →
      ((∀ j2, j2 < fs.length → masks_list.getD j2 none = none) →
        x.motion_vector = (0, 0)) ∧
      (∀ j2, j2 < fs.length → masks_list.getD j2 none ≠ none →
        (∀ m, j2 < m → m < fs.length → masks_list.getD m none = none) →
        x.motion_vector
          = (round2 (x.centroid.1 - (fs.getD j2 dummyFrame).centroid.1),
             round2 (x.centroid.2 - (fs.getD j2 dummyFrame).centroid.2)))) :
    ∀ j, j < (fs ++ [x]).length → masks_list.getD j none ≠ none →
      ((∀ j2, j2 < j → masks_list.getD j2 none = none) →
        ((fs ++ [x]).getD j dummyFrame).motion_vector = (0, 0)) ∧
      (∀ j2, j2 < j → masks_list.getD j2 none ≠ none →
        (∀ m, j2 < m → m < j → masks_list.getD m none = none) →
        ((fs ++ [x]).getD j dummyFrame).motion_vector
          = (round2 (((fs ++ [x]).getD j dummyFrame).centroid.1
                - ((fs ++ [x]).getD j2 dummyFrame).centroid.1),
             round2 (((fs ++ [x]).getD j dummyFrame).centroid.2
                - ((fs ++ [x]).getD j2 dummyFrame).centroid.2))) := by
  intro j hj hpres
  rw [List.length_append, List.length_singleton] at hj
  by_cases hlt : j < fs.length
  · rw [st_getD_append_left _ _ _ _ hlt]
    obtain ⟨hc1, hc2⟩ := hC j hlt hpres
    refine ⟨hc1, ?_⟩
    intro j2 hj2 hp2 hbet
    rw [st_getD_append_left _ _ _ _ (by omega : j2 < fs.length)]
    exact hc2 j2 hj2 hp2 hbet
  · have hje : j = fs.length := by omega
    subst hje
    rw [st_getD_concat_self]
    obtain ⟨hx1, hx2⟩ := hxC hpres
    refine ⟨hx1, ?_⟩
    intro j2 hj2 hp2 hbet
    rw [st_getD_append_left _ _ _ _ (by omega : j2 < fs.length)]
    exact hx2 j2 hj2 hp2 hbet

/-- The analysis loop of run_segment_and_track, one object: starting from a
frames list whose entries satisfy the per-index invariants (frame_index at
each position, defaults at absent-mask indices, motion vectors computed
against the last present-mask centroid) with prev_centroid equal to the
centroid of the last present-mask entry, a successful run of the remaining
k iterations appends exactly one entry per frame index and preserves all
the invariants. -/
theorem trackLoop_invariant (cvtGray : Img → Gray) (findContours : Mask → List Contour)
    (contourArea : Contour → ℚ) (approxPolyDP : Contour → ℚ → Contour)
    (imread : ℕ → Option Img) (cw ch : ℕ) (masks_list : List (Option Mask)) :
    ∀ (k : ℕ) (fs : List FrameData) (pc : Option (ℚ × ℚ)) (idx : ℕ)
      (out : List FrameData),
      idx = fs.length →
      trackLoop cvtGray findContours contourArea approxPolyDP imread cw ch masks_list
        fs pc idx k = .ok out →
      (∀ j, j < fs.length → (fs.getD j dummyFrame).frame_index = j) →
      (∀ j, j < fs.length → masks_list.getD j none = none →
        fs.getD j dummyFrame = defaultEntry cw ch j) →
      (∀ j, j < fs.length → masks_list.getD j none ≠ none →
        ((∀ j2, j2 < j → masks_list.getD j2 none = none) →
          (fs.getD j dummyFrame).motion_vector = (0, 0)) ∧
        (∀ j2, j2 < j → masks_list.getD j2 none ≠ none →
          (∀ m, j2 < m → m < j → masks_list.getD m none = none) →
          (fs.getD j dummyFrame).motion_vector
            = (round2 ((fs.getD j dummyFrame).centroid.1
                  - (fs.getD j2 dummyFrame).centroid.1),
               round2 ((fs.getD j dummyFrame).centroid.2
                  - (fs.getD j2 dummyFrame).centroid.2)))) →
      ((pc = none ∧ ∀ j, j < fs.length → masks_list.getD j none = none) ∨
       (∃ j0, j0 < fs.length ∧ masks_list.getD j0 none ≠ none ∧
         pc = some ((fs.getD j0 dummyFrame).centroid) ∧
         ∀ m, j0 < m → m < fs.length → masks_list.getD m none = none)) →
      out.length = fs.length + k ∧
      (∀ j, j < out.length → (out.getD j dummyFrame).frame_index = j) ∧
      (∀ j, j < out.length → masks_list.getD j none = none →
        out.getD j dummyFrame = defaultEntry cw ch j) ∧
      (∀ j, j < out.length → masks_list.getD j none ≠ none →
        ((∀ j2, j2 < j → masks_list.getD j2 none = none) →
          (out.getD j dummyFrame).motion_vector = (0, 0)) ∧
        (∀ j2, j2 < j → masks_list.getD j2 none ≠ none →
          (∀ m, j2 < m → m < j → masks_list.getD m none = none) →
          (out.getD j dummyFrame).motion_vector
            = (round2 ((out.getD j dummyFrame).centroid.1
                  - (out.getD j2 dummyFrame).centroid.1),
               round2 ((out.getD j dummyFrame).centroid.2
                  - (out.getD j2 dummyFrame).centroid.2)))) := by
  intro k
  induction k with
  | zero =>
    intro fs pc idx out hidx h hA hB hC hP
    have h2 : Except.ok (ε := String) fs = .ok out := h
    injection h2 with h3
    subst h3
    exact ⟨by omega, hA, hB, hC⟩
  | succ k ih =>
    intro fs pc idx out hidx h hA hB hC hP
    subst hidx
    rw [trackLoop] at h
    cases hmk : masks_list.getD fs.length none with
    | none =>
      rw [hmk] at h
      have h2 : trackLoop cvtGray findContours contourArea approxPolyDP imread cw ch
          masks_list (fs ++ [defaultEntry cw ch fs.length]) pc (fs.length + 1) k
          = .ok out := h
      have hlen1 : (fs ++ [defaultEntry cw ch fs.length]).length = fs.length + 1 := by
        simp
      have hres := ih (fs ++ [defaultEntry cw ch fs.length]) pc (fs.length + 1) out
        hlen1.symm h2
        (st_A_append fs _ hA rfl)
        (st_B_append cw ch masks_list fs _ hB (fun _ => rfl))
        (st_C_append masks_list fs _ hC (fun hpres => absurd hmk hpres))
        ?_
      · refine ⟨by rw [hres.1, hlen1]; omega, hres.2.1, hres.2.2.1, hres.2.2.2⟩
      · rcases hP with ⟨hpcn, hall⟩ | ⟨j0, hj0, hp0, hpcc, hbet0⟩
        · left
          refine ⟨hpcn, ?_⟩
          intro j hj
          rw [hlen1] at hj
          by_cases hlt : j < fs.length
          · exact hall j hlt
          · have hje : j = fs.length := by omega
            subst hje
            exact hmk
        · right
          refine ⟨j0, by rw [hlen1]; omega, hp0, ?_, ?_⟩
          · rw [st_getD_append_left _ _ _ _ hj0]
            exact hpcc
          · intro m hm1 hm2
            rw [hlen1] at hm2
            by_cases hlt : m < fs.length
            · exact hbet0 m hm1 hlt
            · have hme : m = fs.length := by omega
              subst hme
              exact hmk
    | some mask =>
      rw [hmk] at h
      have h' : (match analyze_frame cvtGray findContours contourArea approxPolyDP
            (imread fs.length) mask pc with
          | .error e => (.error e : Except String (List FrameData))
          | .ok r => trackLoop cvtGray findContours contourArea approxPolyDP imread cw ch
              masks_list (fs ++ [fdataOf cw ch r fs.length]) (some r.centroid)
              (fs.length + 1) k) = .ok out := h
      cases han : analyze_frame cvtGray findContours contourArea approxPolyDP
          (imread fs.length) mask pc with
      | error e =>
        rw [han] at h'
        exact (Except.noConfusion h')
      | ok r =>
        rw [han] at h'
        have h2 : trackLoop cvtGray findContours contourArea approxPolyDP imread cw ch
            masks_list (fs ++ [fdataOf cw ch r fs.length]) (some r.centroid)
            (fs.length + 1) k = .ok out := h'
        have hlen1 : (fs ++ [fdataOf cw ch r fs.length]).length = fs.length + 1 := by
          simp
        have hpres : masks_list.getD fs.length none ≠ none := by
          rw [hmk]
          exact fun hc => Option.noConfusion hc
        have hmv := analyze_frame_motion cvtGray findContours contourArea approxPolyDP
          (imread fs.length) mask pc r han
        have hxC : masks_list.getD fs.length none ≠ none →
            ((∀ j2, j2 < fs.length → masks_list.getD j2 none = none) →
              (fdataOf cw ch r fs.length).motion_vector = (0, 0)) ∧
            (∀ j2, j2 < fs.length → masks_list.getD j2 none ≠ none →
              (∀ m, j2 < m → m < fs.length → masks_list.getD m none = none) →
              (fdataOf cw ch r fs.length).motion_vector
                = (round2 ((fdataOf cw ch r fs.length).centroid.1
                      - (fs.getD j2 dummyFrame).centroid.1),
                   round2 ((fdataOf cw ch r fs.length).centroid.2
                      - (fs.getD j2 dummyFrame).centroid.2))) := by
          intro _
          constructor
          · intro hallabs
            rcases hP with ⟨hpcn, _⟩ | ⟨j0, hj0len, hp0, _, _⟩
            · subst hpcn
              show r.motion_vector = (0, 0)
              rw [hmv]
            · exact absurd (hallabs j0 hj0len) hp0
          · intro j2 hj2len hp2 hbet
            rcases hP with ⟨_, hall⟩ | ⟨j0, hj0len, hp0, hpcc, hbet0⟩
            · exact absurd (hall j2 hj2len) hp2
            · have hj20 : j2 = j0 := by
                rcases Nat.lt_trichotomy j2 j0 with hlt2 | heq | hgt
                · exact absurd (hbet j0 hlt2 hj0len) hp0
                · exact heq
                · exact absurd (hbet0 j2 hgt hj2len) hp2
              subst hj20
              subst hpcc
              show r.motion_vector
                = (round2 (r.centroid.1 - (fs.getD j2 dummyFrame).centroid.1),
                   round2 (r.centroid.2 - (fs.getD j2 dummyFrame).centroid.2))
              rw [hmv]
        have hres := ih (fs ++ [fdataOf cw ch r fs.length]) (some r.centroid)
          (fs.length + 1) out hlen1.symm h2
          (st_A_append fs _ hA rfl)
          (st_B_append cw ch masks_list fs _ hB
            (fun habs => absurd habs (by rw [hmk]; exact fun hc => Option.noConfusion hc)))
          (st_C_append masks_list fs _ hC hxC)
          ?_
        · refine ⟨by rw [hres.1, hlen1]; omega, hres.2.1, hres.2.2.1, hres.2.2.2⟩
        · right
          refine ⟨fs.length, by rw [hlen1]; omega, hpres, ?_, ?_⟩
          · rw [st_getD_concat_self]
            rfl
          · intro m hm1 hm2
            rw [hlen1] at hm2
            exact absurd hm2 (by omega)

/-- C3: a successful run over total_frames frames yields a track with
exactly one entry per frame index 0..total_frames-1 and no gaps; an index
whose mask is absent receives precisely the fixed default entry (canvas
center centroid, whole-canvas bbox, empty polygon, zero area, luma,
confidence and motion vector) in the built track, and the final track,
after motion smoothing, still carries every default field except possibly
the motion vector, which the smoother may rewrite. -/
theorem track_completeness (cvtGray : Img → Gray) (findContours : Mask → List Contour)
    (contourArea : Contour → ℚ) (approxPolyDP : Contour → ℚ → Contour)
    (imread : ℕ → Option Img) (cw ch : ℕ) (masks_list : List (Option Mask))
    (total_frames : ℕ) (final : List FrameData)
    (hrun : run_track_object cvtGray findContours contourArea approxPolyDP imread cw ch
      masks_list total_frames = .ok final) :
    final.length = total_frames ∧
    (∀ k, k < total_frames → (final.getD k dummyFrame).frame_index = k) ∧
    (∃ raw, build_object_frames cvtGray findContours contourArea approxPolyDP imread
        cw ch masks_list total_frames = .ok raw ∧
      final = smooth_motion_vectors raw 3 ∧
      ∀ k, k < total_frames → masks_list.getD k none = none →
        raw.getD k dummyFrame = defaultEntry cw ch k) ∧
    (∀ k, k < total_frames → masks_list.getD k none = none →
      dropMV (final.getD k dummyFrame) = dropMV (defaultEntry cw ch k)) := by
  cases hb : build_object_frames cvtGray findContours contourArea approxPolyDP imread
      cw ch masks_list total_frames with
  | error e =>
    rw [run_track_object, hb] at hrun
    exact (Except.noConfusion hrun)
  | ok raw =>
    rw [run_track_object, hb] at hrun
    have hrun2 : Except.ok (ε := String) (smooth_motion_vectors raw 3) = .ok final := hrun
    injection hrun2 with h3
    subst h3
    obtain ⟨hlen, hAo, hBo, hCo⟩ := trackLoop_invariant cvtGray findContours contourArea
      approxPolyDP imread cw ch masks_list total_frames [] none 0 raw rfl hb
      (fun j hj => absurd hj (by simp))
      (fun j hj => absurd hj (by simp))
      (fun j hj => absurd hj (by simp))
      (Or.inl ⟨rfl, fun j hj => absurd hj (by simp)⟩)
    have hlen2 : raw.length = total_frames := by
      simpa using hlen
    refine ⟨?_, ?_, ⟨raw, rfl, rfl, ?_⟩, ?_⟩
    · rw [st_smooth_length, hlen2]
    · intro k hk
      have hfi : ((smooth_motion_vectors raw 3).getD k dummyFrame).frame_index
          = (raw.getD k dummyFrame).frame_index :=
        congrArg (fun t => t.1) (st_smooth_dropMV raw 3 k)
      rw [hfi]
      exact hAo k (by omega)
    · intro k hk habs
      exact hBo k (by omega) habs
    · intro k hk habs
      rw [st_smooth_dropMV raw 3 k, hBo k (by omega) habs]

unseal Rat.mul Rat.inv Rat.add Rat.sub in
theorem track_completeness_witness :
    run_track_object cvtW6 fcW6 caW6 apW6 imreadW3 2 2 masksW3 2 = .ok finalW3 ∧
    finalW3.length = 2 ∧
    (finalW3.getD 1 dummyFrame).frame_index = 1 ∧
    dropMV (finalW3.getD 1 dummyFrame) = dropMV (defaultEntry 2 2 1) := by
  have hrun : run_track_object cvtW6 fcW6 caW6 apW6 imreadW3 2 2 masksW3 2
      = .ok finalW3 := by rfl
  have h := track_completeness cvtW6 fcW6 caW6 apW6 imreadW3 2 2 masksW3 2 finalW3 hrun
  exact ⟨hrun, h.1, h.2.1 1 (by omega), h.2.2.2 1 (by omega) (by rfl)⟩

/-- C10: in the built (pre-smoothing) track, a frame with an absent mask
does not update the threaded prev_centroid: the first present-mask entry
has motion vector (0, 0), and every later present-mask entry's motion
vector is computed from its own centroid and the centroid of the most
recent earlier present-mask entry, skipping over default entries (whose
canvas-center centroid is never used as a motion reference). -/
theorem motion_reference (cvtGray : Img → Gray) (findContours : Mask → List Contour)
    (contourArea : Contour → ℚ) (approxPolyDP : Contour → ℚ → Contour)
    (imread : ℕ → Option Img) (cw ch : ℕ) (masks_list : List (Option Mask))
    (total_frames : ℕ) (raw : List FrameData)
    (hrun : build_object_frames cvtGray findContours contourArea approxPolyDP imread
      cw ch masks_list total_frames = .ok raw) :
    (∀ k, k < raw.length → masks_list.getD k none ≠ none →
      (∀ j, j < k → masks_list.getD j none = none) →
      (raw.getD k dummyFrame).motion_vector = (0, 0)) ∧
    (∀ k j, k < raw.length → masks_list.getD k none ≠ none →
      j < k → masks_list.getD j none ≠ none →
      (∀ m, j < m → m < k → masks_list.getD m none = none) →
      (raw.getD k dummyFrame).motion_vector
        = (round2 ((raw.getD k dummyFrame).centroid.1
              - (raw.getD j dummyFrame).centroid.1),
           round2 ((raw.getD k dummyFrame).centroid.2
              - (raw.getD j dummyFrame).centroid.2))) := by
  obtain ⟨hlen, hAo, hBo, hCo⟩ := trackLoop_invariant cvtGray findContours contourArea
    approxPolyDP imread cw ch masks_list total_frames [] none 0 raw rfl hrun
    (fun j hj => absurd hj (by simp))
    (fun j hj => absurd hj (by simp))
    (fun j hj => absurd hj (by simp))
    (Or.inl ⟨rfl, fun j hj => absurd hj (by simp)⟩)
  constructor
  · intro k hk hp hall
    exact (hCo k hk hp).1 hall
  · intro k j hk hp hj hpj hbet
    exact (hCo k hk hp).2 j hj hpj hbet

unseal Rat.mul Rat.inv Rat.add Rat.sub in
theorem motion_reference_witness :
    build_object_frames cvtW6 fcW6 caW6 apW6 imreadW3 2 2 masksW10 4 = .ok rawW10 ∧
    (rawW10.getD 1 dummyFrame).motion_vector = (0, 0) ∧
    (rawW10.getD 3 dummyFrame).motion_vector
      = (round2 ((rawW10.getD 3 dummyFrame).centroid.1
            - (rawW10.getD 1 dummyFrame).centroid.1),
         round2 ((rawW10.getD 3 dummyFrame).centroid.2
            - (rawW10.getD 1 dummyFrame).centroid.2)) := by
  have hrun : build_object_frames cvtW6 fcW6 caW6 apW6 imreadW3 2 2 masksW10 4
      = .ok rawW10 := by rfl
  have h := motion_reference cvtW6 fcW6 caW6 apW6 imreadW3 2 2 masksW10 4 rawW10 hrun
  refine ⟨hrun, ?_, ?_⟩
  · refine h.1 1 (by decide) (by decide) ?_
    intro j hj
    have hj0 : j = 0 := by omega
    subst hj0
    rfl
  · refine h.2 3 1 (by decide) (by decide) (by omega) (by decide) ?_
    intro m h1 h2
    have hm2 : m = 2 := by omega
    subst hm2
    rfl

/-!
## The interactive preview query loop
-/

/-- C9 counterexample: a blank input line produces no response line at all:
the loop strips it and continues, so one line in does not always yield one
line out. -/
theorem previewLoop_blank_line :
    previewLoop (fun s => s) [""] = [] ∧ ([""] : List String).length = 1 := by
  constructor
  · decide
  · rfl

/-- C9 amended: every input line whose stripped content is nonempty and not
the literal QUIT produces exactly one response line, in order; blank lines
are skipped with no response, a line stripping to QUIT ends the session,
and otherwise the session continues whatever the response was (bad requests
answer with one error line and never terminate the loop). -/
theorem previewLoop_responses (respond : String → String) :
    ∀ lines : List String,
      previewLoop respond lines
        = (((lines.map pyStrip).takeWhile (fun l => l ≠ "QUIT")).filter
            (fun l => l ≠ "")).map respond := by
  intro lines
  induction lines with
  | nil => rfl
  | cons line rest ih =>
    show (if pyStrip line = "" then previewLoop respond rest
          else if pyStrip line = "QUIT" then []
          else respond (pyStrip line) :: previewLoop respond rest) = _
    rw [List.map_cons, List.takeWhile_cons]
    by_cases h1 : pyStrip line = ""
    · rw [if_pos h1, h1, ih]
      rw [if_pos (by decide), List.filter_cons, if_neg (by decide)]
    · by_cases h2 : pyStrip line = "QUIT"
      · rw [if_neg h1, if_pos h2, h2]
        rw [if_neg (by decide)]
        rfl
      · rw [if_neg h1, if_neg h2, ih]
        rw [if_pos (by simpa using h2), List.filter_cons, if_pos (by simpa using h1)]
        rfl

theorem previewLoop_responses_witness :
    previewLoop (fun s => s) ["a", "", "b", "QUIT", "c"]
      = ((((["a", "", "b", "QUIT", "c"].map pyStrip).takeWhile
          (fun l => l ≠ "QUIT")).filter (fun l => l ≠ "")).map (fun s => s)) ∧
    previewLoop (fun s => s) ["a", "", "b", "QUIT", "c"] = ["a", "b"] :=
  ⟨previewLoop_responses (fun s => s) ["a", "", "b", "QUIT", "c"], by decide⟩
